import Mathlib

set_option maxHeartbeats 1000000

/-!
Shallow embedding of the spring-poem generator (src/generator.py) and proofs
about its phonetic analysis, line validation, quality scoring, bounded
rejection sampling and outer retry loop.

The external text-generation pipeline is modelled as an oracle
`oracle : Nat → String` giving, for the n-th generator invocation of a run,
the generated continuation after the prompt prefix has been removed and the
result stripped (the program immediately strips the prompt and surrounding
whitespace from every generator result, so this loses no generality).
Printing and prompt construction have no effect on the returned data and are
not modelled.
-/

/-- Characters matched by the Python regex class for whitespace on `str`
patterns (Unicode-aware): ASCII whitespace, the C1 separators, NBSP, and the
Unicode space separators. -/
def isPySpace (c : Char) : Bool :=
  c = ' ' || c = '\t' || c = '\n' || c = '\r' || c.toNat = 11 || c.toNat = 12 ||
  (28 ≤ c.toNat && c.toNat ≤ 31) || c.toNat = 133 || c.toNat = 160 || c.toNat = 5760 ||
  (8192 ≤ c.toNat && c.toNat ≤ 8202) || c.toNat = 8232 || c.toNat = 8233 ||
  c.toNat = 8239 || c.toNat = 8287 || c.toNat = 12288

/-- Letters matched by the character class [а-яёА-ЯЁ] of generator.py. -/
def isRussianLetter (c : Char) : Bool :=
  ('а' ≤ c && c ≤ 'я') || c = 'ё' || ('А' ≤ c && c ≤ 'Я') || c = 'Ё'

/-- Python str.lower, restricted to the alphabets the program manipulates
(Cyrillic and basic Latin); other characters are left unchanged. -/
def pyToLower (c : Char) : Char :=
  if 'А' ≤ c && c ≤ 'Я' then Char.ofNat (c.toNat + 32)
  else if c = 'Ё' then 'ё'
  else if 'A' ≤ c && c ≤ 'Z' then Char.ofNat (c.toNat + 32)
  else c

/-- Python str.lower on a whole string. -/
def pyStrLower (s : String) : String := String.mk (s.toList.map pyToLower)

/-- Helper for Python str.split(): accumulate the current word (reversed)
while scanning; runs of whitespace separate words, empty words are dropped. -/
def splitWSAux : List Char → List Char → List String
  | [], acc =>
    match acc with
    | [] => []
    | _ => [String.mk acc.reverse]
  | c :: rest, acc =>
    if isPySpace c then
      match acc with
      | [] => splitWSAux rest []
      | _ => String.mk acc.reverse :: splitWSAux rest []
    else splitWSAux rest (c :: acc)

/-- Python text.split() with no separator argument. -/
def pyWords (s : String) : List String := splitWSAux s.toList []

/-- The fixed vowel alphabet of the program. -/
def isVowelRu (c : Char) : Bool :=
  c = 'а' || c = 'е' || c = 'ё' || c = 'и' || c = 'о' || c = 'у' ||
  c = 'ы' || c = 'э' || c = 'ю' || c = 'я'

/-- The lowercased last whitespace-delimited word of a line, if any
(the common prelude of count_syllables_in_last_word, get_rhyme_vowel and
get_stress_pattern in generator.py). -/
def last_word_lower (text : String) : Option String :=
  ((pyWords text).getLast?).map pyStrLower

/-- count_syllables: number of vowels of the lowercased word. -/
def count_syllables (word : String) : Nat :=
  ((pyStrLower word).toList.filter isVowelRu).length

/-- count_syllables_in_last_word: 0 for an empty or word-less line. -/
def count_syllables_in_last_word (text : String) : Nat :=
  match last_word_lower text with
  | none => 0
  | some w => count_syllables w

/-- get_rhyme_vowel: last vowel of the lowercased last word. -/
def get_rhyme_vowel (text : String) : Option Char :=
  match last_word_lower text with
  | none => none
  | some w => w.toList.reverse.find? isVowelRu

/-- The rhyme_groups table of get_rhyme_vowel_group. -/
def rhyme_groups : List (Char × List Char) :=
  [('а', ['а', 'я']), ('я', ['а', 'я']),
   ('о', ['о', 'ё']), ('ё', ['о', 'ё']),
   ('у', ['у', 'ю']), ('ю', ['у', 'ю']),
   ('ы', ['ы', 'и']), ('и', ['ы', 'и']),
   ('э', ['э', 'е']), ('е', ['э', 'е'])]

/-- get_rhyme_vowel_group: dict lookup with default [vowel]. -/
def get_rhyme_vowel_group (vowel : Char) : List Char :=
  match rhyme_groups.lookup vowel with
  | some g => g
  | none => [vowel]

/-- check_rhyme: False if either vowel is absent, else membership of the
current vowel in the target vowel's group. -/
def check_rhyme (target_vowel current_vowel : Option Char) : Bool :=
  match target_vowel, current_vowel with
  | some t, some c => decide (c ∈ get_rhyme_vowel_group t)
  | _, _ => false

/-- StressInfo: (stressed vowel, character position in the word, the
lowercased last word), the tuple returned by get_stress_pattern. -/
abbrev StressInfo := Char × Nat × String

/-- Python char.isupper, restricted to the alphabets the program uses. -/
def pyIsUpper (c : Char) : Bool :=
  ('А' ≤ c && c ≤ 'Я') || c = 'Ё' || ('A' ≤ c && c ≤ 'Z')

/-- The stress_dict table of get_stress_pattern, in source order. -/
def stress_dict : List (String × String) :=
  [("весна", "веснА"), ("весны", "веснЫ"), ("весне", "веснЕ"), ("весну", "веснУ"), ("весной", "веснОй"),
   ("трава", "травА"), ("травы", "травЫ"), ("траве", "травЕ"), ("траву", "травУ"), ("травой", "травОй"),
   ("цветы", "цветЫ"), ("цветов", "цветОв"), ("цветам", "цветАм"), ("цветами", "цветАми"),
   ("дождь", "дОждь"), ("дождя", "дождЯ"), ("дождю", "дождЮ"), ("дождем", "дождЕм"),
   ("солнце", "сОлнце"), ("солнца", "сОлнца"), ("солнцу", "сОлнцу"), ("солнцем", "сОлнцем"),
   ("ветер", "вЕтер"), ("ветра", "ветрА"), ("ветру", "ветрУ"), ("ветром", "вЕтром"),
   ("птицы", "птИцы"), ("птиц", "птИц"), ("птицам", "птицАм"), ("птицами", "птицАми"),
   ("листья", "лИстья"), ("листьев", "лИстьев"), ("листьям", "листьЯм"), ("листьями", "листьЯми"),
   ("деревья", "дерЕвья"), ("деревьев", "дерЕвьев"), ("деревьям", "деревьЯм"), ("деревьями", "деревьЯми"),
   ("ручьи", "ручьИ"), ("ручьев", "ручьЁв"), ("ручьям", "ручьЯм"), ("ручьями", "ручьЯми"),
   ("поля", "полЯ"), ("полей", "полЕй"), ("полям", "полЯм"), ("полями", "полЯми"),
   ("сады", "садЫ"), ("садов", "садОв"), ("садам", "садАм"), ("садами", "садАми"),
   ("луга", "лугА"), ("лугов", "лугОв"), ("лугам", "лугАм"), ("лугами", "лугАми"),
   ("река", "рекА"), ("реки", "рекИ"), ("реке", "рекЕ"), ("реку", "рекУ"), ("рекой", "рекОй"),
   ("озеро", "Озеро"), ("озера", "Озера"), ("озеру", "Озеру"), ("озером", "Озером"),
   ("небо", "нЕбо"), ("неба", "нЕба"), ("небу", "нЕбу"), ("небом", "нЕбом"),
   ("утро", "Утро"), ("утра", "Утра"), ("утру", "Утру"), ("утром", "Утром"),
   ("день", "дЕнь"), ("дня", "днЯ"), ("дню", "днЮ"), ("днем", "днЕм"),
   ("ночь", "нОчь"), ("ночи", "нОчи"), ("ночью", "нОчью"),
   ("месяц", "мЕсяц"), ("месяца", "мЕсяца"), ("месяцу", "мЕсяцу"), ("месяцем", "мЕсяцем"),
   ("звезды", "звЁзды"), ("звезд", "звёзд"), ("звездам", "звездАм"), ("звездами", "звездАми"),
   ("свет", "свЕт"), ("света", "свЕта"), ("свету", "свЕту"), ("светом", "свЕтом"),
   ("тепло", "теплО"), ("тепла", "теплА"), ("теплу", "теплУ"), ("теплом", "теплОм"),
   ("радость", "рАдость"), ("радости", "рАдости"), ("радостью", "рАдостью"),
   ("красота", "красотА"), ("красоты", "красотЫ"), ("красоте", "красотЕ"), ("красотой", "красотОй"),
   ("любовь", "любОвь"), ("любви", "любвИ"), ("любовью", "любОвью"),
   ("надежда", "надЕжда"), ("надежды", "надЕжды"), ("надежде", "надЕжде"), ("надеждой", "надЕждой"),
   ("счастье", "счАстье"), ("счастья", "счАстья"), ("счастью", "счАстью"), ("счастьем", "счАстьем")]

/-- First uppercase character of a marked stressed form, lowered, with its
index (the inner loop of get_stress_pattern over a stressed_form). -/
def find_marked : List Char → Nat → Option (Char × Nat)
  | [], _ => none
  | c :: rest, i => if pyIsUpper c then some (pyToLower c, i) else find_marked rest (i + 1)

/-- The marked stressed vowel of a stressed form, if any. -/
def markedVowelInfo (s : String) : Option (Char × Nat) := find_marked s.toList 0

/-- The dictionary pass of get_stress_pattern: scan stress_dict in order; on
a key match return the marked vowel of its stressed form; if the matching
entry's stressed form has no uppercase letter the scan simply continues. -/
def stress_from_dict (w : String) : List (String × String) → Option StressInfo
  | [] => none
  | (k, sf) :: rest =>
    if w = k then
      match markedVowelInfo sf with
      | some (v, i) => some (v, i, w)
      | none => stress_from_dict w rest
    else stress_from_dict w rest

/-- All (vowel, index) pairs of a word in order (the heuristic pass of
get_stress_pattern). -/
def vowel_positions : List Char → Nat → List (Char × Nat)
  | [], _ => []
  | c :: rest, i =>
    if isVowelRu c then (c, i) :: vowel_positions rest (i + 1)
    else vowel_positions rest (i + 1)

/-- Second-to-last element of a list (Python list[-2]). -/
def second_to_last : List (Char × Nat) → Option (Char × Nat)
  | [] => none
  | [_] => none
  | [a, _] => some a
  | _ :: b :: c :: rest => second_to_last (b :: c :: rest)

/-- The positional heuristic of get_stress_pattern: with two or more vowels
the second-to-last is stressed, with exactly one that one, with none the
result is None. -/
def stress_heuristic (w : String) : Option StressInfo :=
  match vowel_positions w.toList 0 with
  | [] => none
  | first :: rest =>
    match second_to_last (first :: rest) with
    | some (v, i) => some (v, i, w)
    | none => some (first.1, first.2, w)

/-- get_stress_pattern: dictionary lookup first, then the heuristic;
None for an empty or word-less line. -/
def get_stress_pattern (text : String) : Option StressInfo :=
  match last_word_lower text with
  | none => none
  | some w =>
    match stress_from_dict w stress_dict with
    | some r => some r
    | none => stress_heuristic w

/-- get_rhyme_type_by_stress. The Python function computes on ints, so the
embedding uses Int arguments. -/
def get_rhyme_type_by_stress (position : Int) (word_length : Int) : String :=
  if position = word_length - 1 then "мужская"
  else if position ≥ word_length - 2 then "женская"
  else if position ≥ word_length - 3 then "дактилическая"
  else "гипердактилическая"

/-- check_stress_compatibility: vacuously true without a target; false when
the candidate line has no stress pattern; otherwise the rhyme types derived
from the two stress positions must coincide. -/
def check_stress_compatibility (new_line : String) (target_stress_info : Option StressInfo) : Bool :=
  match target_stress_info with
  | none => true
  | some (_, position_target, word_target) =>
    match get_stress_pattern new_line with
    | none => false
    | some (_, position_new, word_new) =>
      get_rhyme_type_by_stress (position_new : Int) (word_new.length : Int) ==
        get_rhyme_type_by_stress (position_target : Int) (word_target.length : Int)

/-- Characters kept by the first substitution of clean_poem_line
(everything except Russian letters, whitespace and hyphen is deleted). -/
def keepChar (c : Char) : Bool := isRussianLetter c || isPySpace c || c = '-'

/-- The second substitution of clean_poem_line: each maximal run of
whitespace becomes a single blank. The flag records whether the previous
kept character was part of a whitespace run. -/
def collapseSpacesAux : List Char → Bool → List Char
  | [], _ => []
  | c :: rest, prevSpace =>
    if isPySpace c then
      if prevSpace then collapseSpacesAux rest true
      else ' ' :: collapseSpacesAux rest true
    else c :: collapseSpacesAux rest false

/-- Remove the trailing run of characters satisfying p (the right half of a
Python strip). -/
def dropRightWhile (p : Char → Bool) : List Char → List Char
  | [] => []
  | c :: rest =>
    match dropRightWhile p rest with
    | [] => if p c then [] else [c]
    | r => c :: r

/-- clean_poem_line on character lists: delete everything except Russian
letters, whitespace and hyphens; collapse whitespace runs to single blanks
and strip whitespace from both ends; then strip hyphens from both ends. -/
def cleanChars (l : List Char) : List Char :=
  let kept := l.filter keepChar
  let collapsed := collapseSpacesAux kept false
  let trimmed := dropRightWhile isPySpace (collapsed.dropWhile isPySpace)
  dropRightWhile (fun c => c = '-') (trimmed.dropWhile (fun c => c = '-'))

/-- clean_poem_line. -/
def clean_poem_line (text : String) : String := String.mk (cleanChars text.toList)

/-- The word pattern of is_valid_poem_line: one or more characters, each a
Russian letter or a hyphen. -/
def word_pattern_ok (w : String) : Bool :=
  !(w == "") && w.toList.all (fun c => isRussianLetter c || c = '-')

/-- is_valid_poem_line (the Python defaults are min_words = 3,
max_words = 8; the program always calls it with the defaults). -/
def is_valid_poem_line (text : String) (min_words max_words : Nat) : Bool :=
  if text = "" then false
  else
    let words := pyWords text
    if words.length < min_words || words.length > max_words then false
    else words.all word_pattern_ok

/-- is_duplicate_line: case-insensitive exact match against any non-empty
existing line; an empty new line is never a duplicate. -/
def is_duplicate_line (new_line : String) (existing_lines : List String) : Bool :=
  if new_line = "" then false
  else existing_lines.any (fun e => !(e == "") && pyStrLower new_line == pyStrLower e)

/-- evaluate_line_quality: a signed score and an ordered issue list built
from the rhyme check (-100), the stress check (-50), the syllable
difference (-10 per syllable) and a +20 perfection bonus. -/
def evaluate_line_quality (new_line : String) (target_stress_info : Option StressInfo)
    (target_syllables : Nat) (rhyme_vowel : Option Char) : Int × List String :=
  let rhyme_part : Int × List String :=
    match rhyme_vowel with
    | none => (0, [])
    | some _ =>
      if check_rhyme rhyme_vowel (get_rhyme_vowel new_line) then (0, [])
      else (-100, ["плохая рифма"])
  let stress_part : Int × List String :=
    match target_stress_info with
    | none => (0, [])
    | some _ =>
      if check_stress_compatibility new_line target_stress_info then (0, [])
      else (-50, ["несовпадение ударения"])
  let diff := ((count_syllables_in_last_word new_line : Int) - (target_syllables : Int)).natAbs
  let syll_part : Int × List String :=
    if 0 < diff then (-(10 * (diff : Int)), ["разница в слогах: " ++ toString diff])
    else (0, [])
  let issues := rhyme_part.2 ++ stress_part.2 ++ syll_part.2
  let score := rhyme_part.1 + stress_part.1 + syll_part.1
  let score := if diff = 0 ∧ issues = [] then score + 20 else score
  (score, issues)

/-- The acceptance gate of the candidate loop of generate_spring_poem:
structural validity with the default word-count bounds, no duplicate among
the already accepted lines, and at least 8 characters after cleaning. -/
def passes_gates (cand : String) (poem_lines : List String) : Bool :=
  is_valid_poem_line cand 3 8 && !is_duplicate_line cand poem_lines && decide (8 ≤ cand.length)

/-- The best-candidate accumulator of the candidate loop: replaced exactly
when the new score is strictly greater (best_quality starts at -infinity,
modelled by the none case). -/
def update_best (best : Option (String × Int)) (cand : String) (q : Int) : Option (String × Int) :=
  match best with
  | none => some (cand, q)
  | some (b, bq) => if bq < q then some (cand, q) else some (b, bq)

/-- The per-line candidate loop of generate_spring_poem. fuel is the number
of remaining attempts (25 at the top call), k the index of the next
generator invocation, best the best candidate so far. Each attempt cleans
the oracle text, applies the gates, scores survivors, keeps the strictly
best one, and accepts immediately on a non-negative score with no issues.
Returns the selected line (if any) and the next free oracle index. -/
def sampleGoK (oracle : Nat → String) (poem_lines : List String) (tsi : Option StressInfo)
    (tsyl : Nat) (rv : Option Char) :
    Nat → Nat → Option (String × Int) → Option String × Nat
  | 0, k, best => (best.map Prod.fst, k)
  | fuel + 1, k, best =>
    let cand := clean_poem_line (oracle k)
    if passes_gates cand poem_lines then
      let q := (evaluate_line_quality cand tsi tsyl rv).1
      let iss := (evaluate_line_quality cand tsi tsyl rv).2
      if 0 ≤ q ∧ iss = [] then (some cand, k + 1)
      else sampleGoK oracle poem_lines tsi tsyl rv fuel (k + 1) (update_best best cand q)
    else sampleGoK oracle poem_lines tsi tsyl rv fuel (k + 1) best

/-- The whole 25-attempt candidate loop for one line (CandidateSampler). -/
def sample_candidate_line (oracle : Nat → String) (poem_lines : List String)
    (tsi : Option StressInfo) (tsyl : Nat) (rv : Option Char) (k0 : Nat) :
    Option String × Nat :=
  sampleGoK oracle poem_lines tsi tsyl rv 25 k0 none

/-- The cleaned candidate produced by the j-th generator invocation. -/
def cand_at (oracle : Nat → String) (j : Nat) : String := clean_poem_line (oracle j)

/-- Whether the j-th invocation's cleaned candidate passes the gates. -/
def gate_at (oracle : Nat → String) (poem_lines : List String) (j : Nat) : Bool :=
  passes_gates (cand_at oracle j) poem_lines

/-- The score of the j-th invocation's cleaned candidate. -/
def score_at (oracle : Nat → String) (tsi : Option StressInfo)
    (tsyl : Nat) (rv : Option Char) (j : Nat) : Int :=
  (evaluate_line_quality (cand_at oracle j) tsi tsyl rv).1

/-- The issue list of the j-th invocation's cleaned candidate. -/
def issues_at (oracle : Nat → String) (tsi : Option StressInfo)
    (tsyl : Nat) (rv : Option Char) (j : Nat) : List String :=
  (evaluate_line_quality (cand_at oracle j) tsi tsyl rv).2

/-- The early-exit test of the candidate loop at invocation j: score at
least 0 and an empty issue list. -/
def perfect_at (oracle : Nat → String) (tsi : Option StressInfo)
    (tsyl : Nat) (rv : Option Char) (j : Nat) : Prop :=
  0 ≤ score_at oracle tsi tsyl rv j ∧ issues_at oracle tsi tsyl rv j = []

instance (oracle : Nat → String) (tsi : Option StressInfo)
    (tsyl : Nat) (rv : Option Char) (j : Nat) :
    Decidable (perfect_at oracle tsi tsyl rv j) :=
  inferInstanceAs (Decidable (And _ _))

/-- get_rhyme_target for the single supported scheme: line 1 rhymes with
line 0, line 3 with line 2 (random.choice over the one-element scheme list
always yields this scheme). -/
def get_rhyme_target (line_num : Nat) : Option Nat :=
  if line_num = 1 then some 0 else if line_num = 3 then some 2 else none

/-- The per-line target profile computed at the top of the loop body of
generate_spring_poem. -/
structure LineTargets where
  rv : Option Char
  tsyl : Nat
  tsi : Option StressInfo
  fsi : Option StressInfo
  fsyl : Nat

/-- Lines 489-515 of generator.py: rhyme vowel, target syllable count and
target stress info for one line, together with the (possibly updated)
cached stress info and syllable count of line 0. The stress target is the
cached line-0 stress info when the rhyme target is line 0, and None
otherwise. -/
def line_targets (line_num : Nat) (poem : List String) (fsi : Option StressInfo)
    (fsyl : Nat) : LineTargets :=
  match get_rhyme_target line_num with
  | none => ⟨none, 0, none, fsi, fsyl⟩
  | some t =>
    match poem[t]? with
    | none => ⟨none, 0, none, fsi, fsyl⟩
    | some tgt =>
      let p :=
        if t = 0 ∧ fsi = none then (get_stress_pattern tgt, count_syllables_in_last_word tgt)
        else (fsi, fsyl)
      ⟨get_rhyme_vowel tgt, count_syllables_in_last_word tgt,
       if t = 0 then p.1 else none, p.1, p.2⟩

/-- The mutable state of one poem attempt: accepted lines, cached line-0
stress info and syllable count, and the next free oracle index. -/
structure AttemptState where
  poem : List String
  fsi : Option StressInfo
  fsyl : Nat
  k : Nat

/-- One iteration of the 4-line loop of generate_spring_poem: compute the
target profile, run the candidate loop, and on failure try the relaxed
fallback (one more generator call, accepted if valid and not a duplicate),
otherwise record the empty-string placeholder. -/
def attempt_step (oracle : Nat → String) (line_num : Nat) (st : AttemptState) : AttemptState :=
  let t := line_targets line_num st.poem st.fsi st.fsyl
  let res := sample_candidate_line oracle st.poem t.tsi t.tsyl t.rv st.k
  match res.1 with
  | some line => ⟨st.poem ++ [line], t.fsi, t.fsyl, res.2⟩
  | none =>
    let nl := clean_poem_line (oracle res.2)
    if is_valid_poem_line nl 3 8 && !is_duplicate_line nl st.poem then
      ⟨st.poem ++ [nl], t.fsi, t.fsyl, res.2 + 1⟩
    else
      ⟨st.poem ++ [""], t.fsi, t.fsyl, res.2 + 1⟩

/-- One full run of generate_spring_poem: the four line slots in order and
the next free oracle index. -/
def generate_attempt (oracle : Nat → String) (k0 : Nat) : List String × Nat :=
  let s := attempt_step oracle 3 (attempt_step oracle 2 (attempt_step oracle 1
    (attempt_step oracle 0 ⟨[], none, 0, k0⟩)))
  (s.poem, s.k)

/-- The completeness test of the outer loop: every slot is non-empty. -/
def poem_complete (poem : List String) : Bool := poem.all (fun line => !(line == ""))

/-- The outer retry loop (lines 652-690 of generator.py) over an abstract
sequence of attempt results A. fuel is the number of retries left after the
current attempt att; the result of the final attempt is returned whether or
not it is complete. -/
def outer_go (A : Nat → List String) : Nat → Nat → List String
  | 0, att => A att
  | fuel + 1, att => if poem_complete (A att) then A att else outer_go A fuel (att + 1)

/-- The successive results of generate_spring_poem in one program run, with
the oracle index threaded from attempt to attempt. -/
def attemptSeq (oracle : Nat → String) : Nat → List String × Nat
  | 0 => generate_attempt oracle 0
  | n + 1 => generate_attempt oracle (attemptSeq oracle n).2

/-- The whole program: up to 8 poem attempts, stopping at the first
complete one, otherwise returning the last attempt's slots. -/
def run_poem_generation (oracle : Nat → String) : List String :=
  outer_go (fun n => (attemptSeq oracle n).1) 7 0

/-- Loop invariant of the best-candidate accumulator at position k of a
candidate loop started at k0: either no invocation so far passed the gates
and the accumulator is empty, or it holds a gate-passing candidate whose
score is greatest among all gate-passing invocations so far. -/
def good_best (oracle : Nat → String) (pl : List String) (tsi : Option StressInfo)
    (tsyl : Nat) (rv : Option Char) (k0 k : Nat) (best : Option (String × Int)) : Prop :=
  (best = none ∧ ∀ j, j < k → k0 ≤ j → gate_at oracle pl j = false) ∨
  (∃ m, m < k ∧ k0 ≤ m ∧ gate_at oracle pl m = true ∧
    best = some (cand_at oracle m, score_at oracle tsi tsyl rv m) ∧
    ∀ j, j < k → k0 ≤ j → gate_at oracle pl j = true →
      score_at oracle tsi tsyl rv j ≤ score_at oracle tsi tsyl rv m)

/-- The shape of a score: the four independent contributions of claim C2
(bad rhyme -100, stress mismatch -50, -10 per syllable of difference, and
+20 exactly when the difference is zero and no issue was recorded), summed,
with the corresponding issue strings in order. -/
def score_shape (rhyme_bad stress_bad : Bool) (d : Nat) : Int × List String :=
  ((if rhyme_bad then -100 else 0) + (if stress_bad then -50 else 0) +
     (if 0 < d then -(10 * (d : Int)) else 0) +
     (if d = 0 && !rhyme_bad && !stress_bad then 20 else 0),
   (if rhyme_bad then ["плохая рифма"] else []) ++
     (if stress_bad then ["несовпадение ударения"] else []) ++
     (if 0 < d then ["разница в слогах: " ++ toString d] else []))

/-- The stress-mismatch condition as claim C2 words it: a target is set and
the candidate's stress pattern is absent or its rhyme type differs from the
target's. -/
def stress_bad_spec (new_line : String) (tsi : Option StressInfo) : Bool :=
  match tsi with
  | none => false
  | some (_, pt, wt) =>
    match get_stress_pattern new_line with
    | none => true
    | some (_, pn, wn) =>
      !(get_rhyme_type_by_stress (pn : Int) (wn.length : Int) ==
        get_rhyme_type_by_stress (pt : Int) (wt.length : Int))

/-- The scoring rule exactly as claim C2 words it (claim-side definition,
to be compared with evaluate_line_quality from the source). -/
def evaluate_line_quality_spec (new_line : String) (tsi : Option StressInfo)
    (ts : Nat) (rv : Option Char) : Int × List String :=
  score_shape (rv.isSome && !check_rhyme rv (get_rhyme_vowel new_line))
    (stress_bad_spec new_line tsi)
    ((count_syllables_in_last_word new_line : Int) - (ts : Int)).natAbs

/-- Auxiliary invariant of cleaned text: every whitespace character is the
plain blank and no two adjacent characters are both whitespace (the shape
guaranteed by the whitespace-collapsing substitution). -/
def normSpaced : List Char → Bool
  | [] => true
  | [c] => !isPySpace c || c = ' '
  | c1 :: c2 :: rest =>
    (!isPySpace c1 || c1 = ' ') &&
      (!(isPySpace c1 && isPySpace c2) && normSpaced (c2 :: rest))

lemma group_eq_a : get_rhyme_vowel_group 'а' = ['а', 'я'] := rfl

lemma group_eq_ya : get_rhyme_vowel_group 'я' = ['а', 'я'] := rfl

lemma group_eq_o : get_rhyme_vowel_group 'о' = ['о', 'ё'] := rfl

lemma group_eq_yo : get_rhyme_vowel_group 'ё' = ['о', 'ё'] := rfl

lemma group_eq_u : get_rhyme_vowel_group 'у' = ['у', 'ю'] := rfl

lemma group_eq_yu : get_rhyme_vowel_group 'ю' = ['у', 'ю'] := rfl

lemma group_eq_y : get_rhyme_vowel_group 'ы' = ['ы', 'и'] := rfl

lemma group_eq_i : get_rhyme_vowel_group 'и' = ['ы', 'и'] := rfl

lemma group_eq_e : get_rhyme_vowel_group 'э' = ['э', 'е'] := rfl

lemma group_eq_ye : get_rhyme_vowel_group 'е' = ['э', 'е'] := rfl

lemma group_default (v : Char)
    (h : v ∉ (['а', 'я', 'о', 'ё', 'у', 'ю', 'ы', 'и', 'э', 'е'] : List Char)) :
    get_rhyme_vowel_group v = [v] := by
  simp only [List.mem_cons, List.not_mem_nil, or_false, not_or] at h
  obtain ⟨h1, h2, h3, h4, h5, h6, h7, h8, h9, h10⟩ := h
  simp [get_rhyme_vowel_group, rhyme_groups, List.lookup,
    beq_eq_false_iff_ne.mpr h1, beq_eq_false_iff_ne.mpr h2, beq_eq_false_iff_ne.mpr h3,
    beq_eq_false_iff_ne.mpr h4, beq_eq_false_iff_ne.mpr h5, beq_eq_false_iff_ne.mpr h6,
    beq_eq_false_iff_ne.mpr h7, beq_eq_false_iff_ne.mpr h8, beq_eq_false_iff_ne.mpr h9,
    beq_eq_false_iff_ne.mpr h10]

lemma mem_group_self (v : Char) : v ∈ get_rhyme_vowel_group v := by
  by_cases hv : v ∈ (['а', 'я', 'о', 'ё', 'у', 'ю', 'ы', 'и', 'э', 'е'] : List Char)
  · fin_cases hv <;> decide
  · rw [group_default v hv]
    exact List.mem_singleton.mpr rfl

lemma mem_group_symm (a b : Char) :
    b ∈ get_rhyme_vowel_group a ↔ a ∈ get_rhyme_vowel_group b := by
  by_cases ha : a ∈ (['а', 'я', 'о', 'ё', 'у', 'ю', 'ы', 'и', 'э', 'е'] : List Char) <;>
    by_cases hb : b ∈ (['а', 'я', 'о', 'ё', 'у', 'ю', 'ы', 'и', 'э', 'е'] : List Char)
  · fin_cases ha <;> fin_cases hb <;> decide
  · rw [group_default b hb, List.mem_singleton]
    fin_cases ha <;>
      (first
        | rw [group_eq_a] | rw [group_eq_ya] | rw [group_eq_o] | rw [group_eq_yo]
        | rw [group_eq_u] | rw [group_eq_yu] | rw [group_eq_y] | rw [group_eq_i]
        | rw [group_eq_e] | rw [group_eq_ye]) <;>
      · simp only [List.mem_cons, List.not_mem_nil, or_false]
        constructor
        · rintro (rfl | rfl) <;> exact absurd (by decide) hb
        · rintro rfl
          exact absurd (by decide) hb
  · rw [group_default a ha, List.mem_singleton]
    fin_cases hb <;>
      (first
        | rw [group_eq_a] | rw [group_eq_ya] | rw [group_eq_o] | rw [group_eq_yo]
        | rw [group_eq_u] | rw [group_eq_yu] | rw [group_eq_y] | rw [group_eq_i]
        | rw [group_eq_e] | rw [group_eq_ye]) <;>
      · simp only [List.mem_cons, List.not_mem_nil, or_false]
        constructor
        · rintro rfl
          exact absurd (by decide) ha
        · rintro (rfl | rfl) <;> exact absurd (by decide) ha
  · rw [group_default a ha, group_default b hb, List.mem_singleton, List.mem_singleton]
    exact eq_comm

/-- Claim C7: the vowel-equivalence mapping is total and symmetric: every
character belongs to its own group (characters outside the table default to
the singleton group), membership is symmetric, and consequently check_rhyme
is symmetric whenever both arguments are present. -/
theorem C7_vowel_equivalence_total_symmetric :
    (∀ v : Char, v ∈ get_rhyme_vowel_group v) ∧
    (∀ a b : Char, b ∈ get_rhyme_vowel_group a ↔ a ∈ get_rhyme_vowel_group b) ∧
    (∀ a b : Char, check_rhyme (some a) (some b) = check_rhyme (some b) (some a)) := by
  refine ⟨mem_group_self, mem_group_symm, ?_⟩
  intro a b
  simp only [check_rhyme]
  exact decide_eq_decide.mpr (mem_group_symm a b)

/-- Claim C8: with the default bounds, validity fails on empty text and on
word counts outside [3, 8], and holds exactly when the word count is in
range and every whitespace-split word consists solely of Russian letters
(either case, including the letter yo) and hyphens; in particular a 2-word
and a 9-word line, a line with a digit, and a line with a Latin word are
rejected, and a well-formed 5-word line is accepted. -/
theorem C8_validator_characterization (text : String) :
    (is_valid_poem_line text 3 8 = true ↔
      3 ≤ (pyWords text).length ∧ (pyWords text).length ≤ 8 ∧
        ∀ w ∈ pyWords text, word_pattern_ok w = true) ∧
    is_valid_poem_line "" 3 8 = false ∧
    is_valid_poem_line "весна идёт" 3 8 = false ∧
    is_valid_poem_line "а б в г д е ж з и" 3 8 = false ∧
    is_valid_poem_line "весна идёт к нам в 2025" 3 8 = false ∧
    is_valid_poem_line "весна spring идёт к нам" 3 8 = false ∧
    is_valid_poem_line "весна идёт к нам домой" 3 8 = true := by
  refine ⟨?_, by decide, by decide, by decide, by decide, by decide, by decide⟩
  by_cases ht : text = ""
  · subst ht
    have hw : pyWords "" = [] := rfl
    simp [is_valid_poem_line, hw]
  · simp only [is_valid_poem_line, if_neg ht]
    by_cases hlen : (pyWords text).length < 3 ∨ (pyWords text).length > 8
    · have hl : (decide ((pyWords text).length < 3) || decide ((pyWords text).length > 8)) = true := by
        rcases hlen with h | h <;> simp [h]
      rw [if_pos hl]
      constructor
      · intro h
        exact absurd h (by simp)
      · rintro ⟨h1, h2, -⟩
        omega
    · have hl : (decide ((pyWords text).length < 3) || decide ((pyWords text).length > 8)) = false := by
        push_neg at hlen
        simp [Nat.not_lt.mpr hlen.1, Nat.not_lt.mpr hlen.2]
      rw [if_neg (by simp [hl])]
      push_neg at hlen
      rw [List.all_eq_true]
      constructor
      · intro h
        exact ⟨hlen.1, hlen.2, h⟩
      · rintro ⟨-, -, h⟩
        exact h

lemma normSpaced_tail (c : Char) (l : List Char) (h : normSpaced (c :: l) = true) :
    normSpaced l = true := by
  cases l with
  | nil => rfl
  | cons c2 rest =>
    simp only [normSpaced, Bool.and_eq_true] at h
    exact h.2.2

lemma normSpaced_blank (c : Char) (l : List Char) (h : normSpaced (c :: l) = true) :
    (!isPySpace c || c = ' ') = true := by
  cases l with
  | nil => exact h
  | cons c2 rest =>
    simp only [normSpaced, Bool.and_eq_true] at h
    exact h.1

lemma normSpaced_adj (c c2 : Char) (l : List Char) (h : normSpaced (c :: c2 :: l) = true) :
    (isPySpace c && isPySpace c2) = false := by
  simp only [normSpaced, Bool.and_eq_true] at h
  have h21 := h.2.1
  simp only [Bool.not_eq_true'] at h21
  exact h21

lemma normSpaced_of_parts (c : Char) (l : List Char)
    (hb : (!isPySpace c || c = ' ') = true)
    (ha : ∀ c2, l.head? = some c2 → (isPySpace c && isPySpace c2) = false)
    (ht : normSpaced l = true) : normSpaced (c :: l) = true := by
  cases l with
  | nil => exact hb
  | cons c2 rest =>
    simp only [normSpaced, Bool.and_eq_true]
    refine ⟨hb, ?_, ht⟩
    simp only [Bool.not_eq_true']
    exact ha c2 rfl

lemma collapse_cons_sp (a : Char) (rest : List Char) (b : Bool) (ha : isPySpace a = true) :
    collapseSpacesAux (a :: rest) b =
      if b then collapseSpacesAux rest true else ' ' :: collapseSpacesAux rest true := by
  cases b <;> simp [collapseSpacesAux, ha]

lemma collapse_cons_nsp (a : Char) (rest : List Char) (b : Bool) (ha : isPySpace a = false) :
    collapseSpacesAux (a :: rest) b = a :: collapseSpacesAux rest false := by
  cases b <;> simp [collapseSpacesAux, ha]

lemma collapse_head (l : List Char) :
    ∀ c, (collapseSpacesAux l true).head? = some c → isPySpace c = false := by
  induction l with
  | nil =>
    intro c h
    simp [collapseSpacesAux] at h
  | cons a rest ih =>
    intro c h
    by_cases ha : isPySpace a = true
    · rw [collapse_cons_sp a rest true ha, if_pos rfl] at h
      exact ih c h
    · rw [Bool.not_eq_true] at ha
      rw [collapse_cons_nsp a rest true ha, List.head?_cons] at h
      cases h
      exact ha

lemma collapse_all (p : Char → Bool) (hblank : p ' ' = true) (l : List Char) :
    ∀ b, l.all p = true → (collapseSpacesAux l b).all p = true := by
  induction l with
  | nil =>
    intro b _
    rfl
  | cons a rest ih =>
    intro b h
    rw [List.all_cons, Bool.and_eq_true] at h
    by_cases ha : isPySpace a = true
    · rw [collapse_cons_sp a rest b ha]
      cases b
      · rw [if_neg (by simp)]
        rw [List.all_cons, hblank, Bool.true_and]
        exact ih true h.2
      · rw [if_pos rfl]
        exact ih true h.2
    · rw [Bool.not_eq_true] at ha
      rw [collapse_cons_nsp a rest b ha, List.all_cons, h.1, Bool.true_and]
      exact ih false h.2

lemma collapse_normSpaced (l : List Char) : ∀ b, normSpaced (collapseSpacesAux l b) = true := by
  induction l with
  | nil =>
    intro b
    rfl
  | cons a rest ih =>
    intro b
    by_cases ha : isPySpace a = true
    · rw [collapse_cons_sp a rest b ha]
      cases b
      · rw [if_neg (by simp)]
        refine normSpaced_of_parts _ _ (by decide) ?_ (ih true)
        intro c2 h2
        rw [collapse_head rest c2 h2, Bool.and_false]
      · rw [if_pos rfl]
        exact ih true
    · rw [Bool.not_eq_true] at ha
      rw [collapse_cons_nsp a rest b ha]
      refine normSpaced_of_parts _ _ (by rw [ha]; rfl) ?_ (ih false)
      intro c2 _
      rw [ha, Bool.false_and]

lemma collapse_id (l : List Char) : ∀ b, normSpaced l = true →
    (b = true → ∀ c, l.head? = some c → isPySpace c = false) →
    collapseSpacesAux l b = l := by
  induction l with
  | nil =>
    intro b _ _
    rfl
  | cons a rest ih =>
    intro b hn hh
    by_cases ha : isPySpace a = true
    · cases b
      · rw [collapse_cons_sp a rest false ha, if_neg (by simp)]
        have hblank := normSpaced_blank a rest hn
        rw [ha] at hblank
        simp only [Bool.not_true, Bool.false_or, decide_eq_true_eq] at hblank
        subst hblank
        have hrest : collapseSpacesAux rest true = rest := by
          apply ih true (normSpaced_tail _ _ hn)
          intro _ c hc
          cases rest with
          | nil => simp at hc
          | cons c2 r2 =>
            rw [List.head?_cons] at hc
            cases hc
            have := normSpaced_adj _ _ _ hn
            rw [ha, Bool.true_and] at this
            exact this
        rw [hrest]
      · exact absurd ha (by simpa using hh rfl a rfl)
    · rw [Bool.not_eq_true] at ha
      rw [collapse_cons_nsp a rest b ha]
      have hrest : collapseSpacesAux rest false = rest :=
        ih false (normSpaced_tail _ _ hn) (by intro h; cases h)
      rw [hrest]

lemma dropWhile_all (p q : Char → Bool) (l : List Char) (h : l.all p = true) :
    (l.dropWhile q).all p = true := by
  rw [List.all_eq_true] at h ⊢
  intro x hx
  exact h x ((List.dropWhile_sublist q).subset hx)

lemma dropWhile_normSpaced (q : Char → Bool) (l : List Char) (h : normSpaced l = true) :
    normSpaced (l.dropWhile q) = true := by
  induction l with
  | nil => rfl
  | cons a rest ih =>
    rw [List.dropWhile_cons]
    by_cases hq : q a = true
    · rw [if_pos hq]
      exact ih (normSpaced_tail _ _ h)
    · rw [if_neg hq]
      exact h

lemma dropWhile_head (q : Char → Bool) (l : List Char) :
    ∀ c, (l.dropWhile q).head? = some c → q c = false := by
  induction l with
  | nil =>
    intro c h
    simp at h
  | cons a rest ih =>
    intro c h
    rw [List.dropWhile_cons] at h
    by_cases hq : q a = true
    · rw [if_pos hq] at h
      exact ih c h
    · rw [if_neg hq] at h
      rw [List.head?_cons] at h
      cases h
      exact Bool.not_eq_true _ ▸ by simpa using hq

lemma dropWhile_id (q : Char → Bool) (l : List Char)
    (h : ∀ c, l.head? = some c → q c = false) : l.dropWhile q = l := by
  cases l with
  | nil => rfl
  | cons a rest =>
    rw [List.dropWhile_cons, if_neg (by rw [h a rfl]; simp)]

lemma dropRightWhile_all (p q : Char → Bool) (l : List Char) (h : l.all p = true) :
    (dropRightWhile q l).all p = true := by
  induction l with
  | nil => rfl
  | cons a rest ih =>
    rw [List.all_cons, Bool.and_eq_true] at h
    simp only [dropRightWhile]
    cases hr : dropRightWhile q rest with
    | nil =>
      by_cases hq : q a = true
      · rw [if_pos hq]
        rfl
      · rw [if_neg hq]
        rw [List.all_cons, h.1]
        rfl
    | cons c2 r2 =>
      rw [List.all_cons, h.1, Bool.true_and, ← hr]
      exact ih h.2

lemma dropRightWhile_headish (q : Char → Bool) (a : Char) (rest : List Char) :
    dropRightWhile q (a :: rest) = [] ∨ (dropRightWhile q (a :: rest)).head? = some a := by
  simp only [dropRightWhile]
  cases hr : dropRightWhile q rest with
  | nil =>
    by_cases hq : q a = true
    · rw [if_pos hq]
      exact Or.inl rfl
    · rw [if_neg hq]
      exact Or.inr rfl
  | cons c2 r2 => exact Or.inr rfl

lemma dropRightWhile_normSpaced (q : Char → Bool) (l : List Char) (h : normSpaced l = true) :
    normSpaced (dropRightWhile q l) = true := by
  induction l with
  | nil => rfl
  | cons a rest ih =>
    simp only [dropRightWhile]
    cases hr : dropRightWhile q rest with
    | nil =>
      by_cases hq : q a = true
      · rw [if_pos hq]
        rfl
      · rw [if_neg hq]
        exact normSpaced_blank a rest h
    | cons c2 r2 =>
      refine normSpaced_of_parts _ _ (normSpaced_blank a rest h) ?_ ?_
      · intro c hc
        rw [List.head?_cons] at hc
        cases hc
        cases rest with
        | nil => cases hr
        | cons b2 br =>
          rcases dropRightWhile_headish q b2 br with h1 | h1
          · rw [hr] at h1
            cases h1
          · rw [hr, List.head?_cons] at h1
            cases h1
            exact normSpaced_adj _ _ _ h
      · rw [← hr]
        exact ih (normSpaced_tail _ _ h)

lemma dropRightWhile_id (q : Char → Bool) (l : List Char)
    (h : ∀ c, l.getLast? = some c → q c = false) : dropRightWhile q l = l := by
  induction l with
  | nil => rfl
  | cons a rest ih =>
    simp only [dropRightWhile]
    cases rest with
    | nil =>
      have : q a = false := h a rfl
      simp only [dropRightWhile]
      rw [if_neg (by rw [this]; simp)]
    | cons b2 br =>
      have hrest : dropRightWhile q (b2 :: br) = b2 :: br := by
        apply ih
        intro c hc
        exact h c (by rw [List.getLast?_cons_cons]; exact hc)
      rw [hrest]

lemma dropRightWhile_last (q : Char → Bool) (l : List Char) :
    ∀ c, (dropRightWhile q l).getLast? = some c → q c = false := by
  induction l with
  | nil =>
    intro c h
    simp [dropRightWhile] at h
  | cons a rest ih =>
    intro c h
    simp only [dropRightWhile] at h
    cases hr : dropRightWhile q rest with
    | nil =>
      rw [hr] at h
      by_cases hq : q a = true
      · rw [if_pos hq] at h
        simp at h
      · rw [if_neg hq] at h
        simp only [List.getLast?_singleton, Option.some.injEq] at h
        cases h
        simpa using hq
    | cons c2 r2 =>
      rw [hr, List.getLast?_cons_cons] at h
      exact ih c (by rw [hr]; exact h)

lemma dropRightWhile_head_eq (q : Char → Bool) (l : List Char) :
    dropRightWhile q l = [] ∨ (dropRightWhile q l).head? = l.head? := by
  cases l with
  | nil => exact Or.inl rfl
  | cons a r =>
    rcases dropRightWhile_headish q a r with h | h
    · exact Or.inl h
    · exact Or.inr (by rw [h, List.head?_cons])

lemma cleanChars_all_keep (l : List Char) : (cleanChars l).all keepChar = true := by
  show (dropRightWhile _ (List.dropWhile _ (dropRightWhile _ (List.dropWhile _
    (collapseSpacesAux (l.filter keepChar) false))))).all keepChar = true
  apply dropRightWhile_all
  apply dropWhile_all
  apply dropRightWhile_all
  apply dropWhile_all
  apply collapse_all keepChar (by decide)
  exact List.all_eq_true.mpr fun x hx => (List.mem_filter.mp hx).2

lemma cleanChars_normSpaced (l : List Char) : normSpaced (cleanChars l) = true := by
  show normSpaced (dropRightWhile _ (List.dropWhile _ (dropRightWhile _ (List.dropWhile _
    (collapseSpacesAux (l.filter keepChar) false))))) = true
  apply dropRightWhile_normSpaced
  apply dropWhile_normSpaced
  apply dropRightWhile_normSpaced
  apply dropWhile_normSpaced
  apply collapse_normSpaced

lemma cleanChars_head_not_dash (l : List Char) :
    ∀ c, (cleanChars l).head? = some c → decide (c = '-') = false := by
  intro c hc
  have hshow : cleanChars l = dropRightWhile (fun c => decide (c = '-'))
      (List.dropWhile (fun c => decide (c = '-')) (dropRightWhile isPySpace
      (List.dropWhile isPySpace (collapseSpacesAux (l.filter keepChar) false)))) := rfl
  rw [hshow] at hc
  rcases dropRightWhile_head_eq (fun c => decide (c = '-'))
      (List.dropWhile (fun c => decide (c = '-')) (dropRightWhile isPySpace
      (List.dropWhile isPySpace (collapseSpacesAux (l.filter keepChar) false)))) with h | h
  · rw [h] at hc
    cases hc
  · rw [h] at hc
    exact dropWhile_head _ _ c hc

lemma cleanChars_last_not_dash (l : List Char) :
    ∀ c, (cleanChars l).getLast? = some c → decide (c = '-') = false := by
  intro c hc
  exact dropRightWhile_last _ _ c hc

lemma cleanChars_idem (l : List Char)
    (hh : ∀ c, (cleanChars l).head? = some c → isPySpace c = false)
    (hl : ∀ c, (cleanChars l).getLast? = some c → isPySpace c = false) :
    cleanChars (cleanChars l) = cleanChars l := by
  have hall := cleanChars_all_keep l
  have hns := cleanChars_normSpaced l
  have hhd := cleanChars_head_not_dash l
  have hlast := cleanChars_last_not_dash l
  show dropRightWhile _ (List.dropWhile _ (dropRightWhile _ (List.dropWhile _
    (collapseSpacesAux ((cleanChars l).filter keepChar) false)))) = cleanChars l
  rw [List.filter_eq_self.mpr (List.all_eq_true.mp hall)]
  rw [collapse_id (cleanChars l) false hns (by intro h; cases h)]
  rw [dropWhile_id _ _ hh]
  rw [dropRightWhile_id _ _ hl]
  rw [dropWhile_id _ _ hhd]
  rw [dropRightWhile_id _ _ hlast]

/-- Claim C4, counterexample: cleaning is not idempotent. For the input
consisting of a hyphen, a blank and a letter, stripping the boundary hyphen
(which happens after whitespace trimming) exposes a leading blank that a
second cleaning removes. -/
theorem C4_counterexample : clean_poem_line (clean_poem_line "- а") ≠ clean_poem_line "- а" := by
  decide

/-- Claim C4, amended: every cleaned line has no leading or trailing
hyphen and no run of repeated or non-blank whitespace, and cleaning is
idempotent for every input whose cleaned form has no leading or trailing
whitespace (a leading/trailing blank can survive only when stripping
boundary hyphens exposes it, as in the counterexample). -/
theorem C4_clean_amended (x : String) :
    (∀ c, (clean_poem_line x).toList.head? = some c → c ≠ '-') ∧
    (∀ c, (clean_poem_line x).toList.getLast? = some c → c ≠ '-') ∧
    normSpaced (clean_poem_line x).toList = true ∧
    ((∀ c, (clean_poem_line x).toList.head? = some c → isPySpace c = false) →
      (∀ c, (clean_poem_line x).toList.getLast? = some c → isPySpace c = false) →
      clean_poem_line (clean_poem_line x) = clean_poem_line x) := by
  have htl : (clean_poem_line x).toList = cleanChars x.toList := rfl
  refine ⟨?_, ?_, ?_, ?_⟩
  · intro c hc
    have := cleanChars_head_not_dash x.toList c (htl ▸ hc)
    simpa using this
  · intro c hc
    have := cleanChars_last_not_dash x.toList c (htl ▸ hc)
    simpa using this
  · rw [htl]
    exact cleanChars_normSpaced x.toList
  · intro hh hl
    show String.mk (cleanChars (clean_poem_line x).toList) = clean_poem_line x
    rw [htl]
    rw [cleanChars_idem x.toList (fun c hc => hh c (htl ▸ hc)) (fun c hc => hl c (htl ▸ hc))]
    rfl

/-- Witness for the amended claim C4 at a concrete input. -/
theorem C4_witness : clean_poem_line (clean_poem_line "тихо шумят леса") = clean_poem_line "тихо шумят леса" :=
  (C4_clean_amended "тихо шумят леса").2.2.2 (by decide) (by decide)

lemma evaluate_eq_spec (l : String) (tsi : Option StressInfo) (ts : Nat) (rv : Option Char) :
    evaluate_line_quality l tsi ts rv = evaluate_line_quality_spec l tsi ts rv := by
  cases rv with
  | none =>
    cases tsi with
    | none =>
      by_cases hd : ((count_syllables_in_last_word l : Int) - (ts : Int)).natAbs = 0
      · simp [evaluate_line_quality, evaluate_line_quality_spec, score_shape, stress_bad_spec, hd]
      · simp [evaluate_line_quality, evaluate_line_quality_spec, score_shape, stress_bad_spec,
          hd, Nat.pos_of_ne_zero hd]
    | some si =>
      obtain ⟨sv, pt, wt⟩ := si
      by_cases hcs : check_stress_compatibility l (some (sv, pt, wt)) = true <;>
        by_cases hd : ((count_syllables_in_last_word l : Int) - (ts : Int)).natAbs = 0
      all_goals
        simp only [check_stress_compatibility] at hcs
      all_goals
        cases hsp : get_stress_pattern l with
        | none => simp_all [evaluate_line_quality, evaluate_line_quality_spec, score_shape,
            stress_bad_spec, check_stress_compatibility, Nat.pos_of_ne_zero]
        | some r =>
          obtain ⟨v2, pn, wn⟩ := r
          simp_all [evaluate_line_quality, evaluate_line_quality_spec, score_shape,
            stress_bad_spec, check_stress_compatibility, Nat.pos_of_ne_zero]
  | some v =>
    cases tsi with
    | none =>
      by_cases hcr : check_rhyme (some v) (get_rhyme_vowel l) = true <;>
        by_cases hd : ((count_syllables_in_last_word l : Int) - (ts : Int)).natAbs = 0 <;>
        simp_all [evaluate_line_quality, evaluate_line_quality_spec, score_shape,
          stress_bad_spec, Nat.pos_of_ne_zero]
    | some si =>
      obtain ⟨sv, pt, wt⟩ := si
      by_cases hcr : check_rhyme (some v) (get_rhyme_vowel l) = true <;>
        by_cases hcs : check_stress_compatibility l (some (sv, pt, wt)) = true <;>
        by_cases hd : ((count_syllables_in_last_word l : Int) - (ts : Int)).natAbs = 0
      all_goals
        simp only [check_stress_compatibility] at hcs
      all_goals
        cases hsp : get_stress_pattern l with
        | none => simp_all [evaluate_line_quality, evaluate_line_quality_spec, score_shape,
            stress_bad_spec, check_stress_compatibility, Nat.pos_of_ne_zero]
        | some r =>
          obtain ⟨v2, pn, wn⟩ := r
          simp_all [evaluate_line_quality, evaluate_line_quality_spec, score_shape,
            stress_bad_spec, check_stress_compatibility, Nat.pos_of_ne_zero]

lemma syll_issue_ne_stress (d : Nat) :
    ("разница в слогах: " ++ toString d) ≠ "несовпадение ударения" := by
  intro h
  have h1 : ("разница в слогах: " ++ toString d).data.head? = some 'р' := by
    rw [String.data_append]
    rfl
  rw [h] at h1
  exact absurd h1 (by decide)

lemma syll_issue_ne_nil (d : Nat) :
    (["разница в слогах: " ++ toString d] : List String) ≠ [] := by
  intro h
  cases h

lemma shape_props (rb sb : Bool) (d : Nat) :
    (score_shape rb sb d = (20, []) ∨
      ((score_shape rb sb d).1 ≤ -10 ∧ (score_shape rb sb d).2 ≠ [])) ∧
    ((score_shape rb sb d).2 = [] ↔ (score_shape rb sb d).1 = 20) ∧
    (score_shape rb sb d).1 ≠ 0 ∧
    ((0 ≤ (score_shape rb sb d).1 ∧ (score_shape rb sb d).2 = []) ↔
      (score_shape rb sb d).2 = []) := by
  have hd10 : d ≠ 0 → -(10 * (d : Int)) ≤ -10 := by
    intro h
    have : 1 ≤ d := Nat.one_le_iff_ne_zero.mpr h
    have hcast : (1 : Int) ≤ (d : Int) := by exact_mod_cast this
    omega
  cases rb <;> cases sb <;> by_cases hd : d = 0 <;>
    simp_all [score_shape, Nat.pos_of_ne_zero] <;>
    omega

/-- Claim C10: the scorer returns either exactly (20, []) or a score of at
most -10 with a non-empty issue list; the issue list is empty iff the score
is exactly 20, a score of 0 never occurs, and the early-exit test
"score at least 0 and no issues" is equivalent to "no issues". -/
theorem C10_score_range (l : String) (tsi : Option StressInfo) (ts : Nat) (rv : Option Char) :
    (evaluate_line_quality l tsi ts rv = (20, []) ∨
      ((evaluate_line_quality l tsi ts rv).1 ≤ -10 ∧ (evaluate_line_quality l tsi ts rv).2 ≠ [])) ∧
    ((evaluate_line_quality l tsi ts rv).2 = [] ↔ (evaluate_line_quality l tsi ts rv).1 = 20) ∧
    (evaluate_line_quality l tsi ts rv).1 ≠ 0 ∧
    ((0 ≤ (evaluate_line_quality l tsi ts rv).1 ∧ (evaluate_line_quality l tsi ts rv).2 = []) ↔
      (evaluate_line_quality l tsi ts rv).2 = []) := by
  rw [evaluate_eq_spec]
  exact shape_props _ _ _

/-- Claim C2: the scorer is the sum of the independent contributions
described by the specification (formalised by evaluate_line_quality_spec),
and a candidate with matching rhyme vowel, matching rhyme type and zero
syllable difference scores exactly (20, []). -/
theorem C2_scorer_decomposition :
    (∀ (l : String) (tsi : Option StressInfo) (ts : Nat) (rv : Option Char),
      evaluate_line_quality l tsi ts rv = evaluate_line_quality_spec l tsi ts rv) ∧
    (∀ (l : String) (v : Char) (si : StressInfo) (ts : Nat),
      check_rhyme (some v) (get_rhyme_vowel l) = true →
      check_stress_compatibility l (some si) = true →
      count_syllables_in_last_word l = ts →
      evaluate_line_quality l (some si) ts (some v) = (20, [])) := by
  refine ⟨evaluate_eq_spec, ?_⟩
  intro l v si ts hcr hcs hts
  obtain ⟨sv, pt, wt⟩ := si
  rw [evaluate_eq_spec]
  simp only [check_stress_compatibility] at hcs
  cases hsp : get_stress_pattern l with
  | none =>
    rw [hsp] at hcs
    cases hcs
  | some r =>
    obtain ⟨v2, pn, wn⟩ := r
    rw [hsp] at hcs
    simp only [beq_iff_eq] at hcs
    subst hts
    simp [evaluate_line_quality_spec, score_shape, stress_bad_spec, hcr, hcs, hsp]

/-- Witness for claim C2 at a concrete line and target profile. -/
theorem C2_scorer_witness :
    evaluate_line_quality "идёт красивая весна" (some ('а', 4, "весна")) 2 (some 'а') = (20, []) :=
  C2_scorer_decomposition.2 "идёт красивая весна" 'а' ('а', 4, "весна") 2
    (by decide) (by decide) (by decide)

lemma stress_bad_spec_eq (l : String) (tsi : Option StressInfo) :
    stress_bad_spec l tsi = (tsi.isSome && !check_stress_compatibility l tsi) := by
  cases tsi with
  | none => rfl
  | some si =>
    obtain ⟨sv, pt, wt⟩ := si
    simp only [stress_bad_spec, check_stress_compatibility, Option.isSome_some, Bool.true_and]
    cases hsp : get_stress_pattern l with
    | none => rfl
    | some r =>
      obtain ⟨v2, pn, wn⟩ := r
      rfl

/-- Claim C6: the target stress info computed for line indices 0, 2 and 3
is always None (only line 1, which rhymes with line 0, can receive one),
and the scorer emits the stress-mismatch issue exactly when a stress target
is present and the stress compatibility check fails — hence the -50 penalty
is possible only when scoring line 1 against line 0. -/
theorem C6_stress_only_for_line1 :
    (∀ (poem : List String) (fsi : Option StressInfo) (fsyl : Nat),
      (line_targets 0 poem fsi fsyl).tsi = none ∧
      (line_targets 2 poem fsi fsyl).tsi = none ∧
      (line_targets 3 poem fsi fsyl).tsi = none) ∧
    (∀ (l : String) (tsi : Option StressInfo) (ts : Nat) (rv : Option Char),
      "несовпадение ударения" ∈ (evaluate_line_quality l tsi ts rv).2 ↔
        (tsi.isSome = true ∧ check_stress_compatibility l tsi = false)) := by
  constructor
  · intro poem fsi fsyl
    refine ⟨rfl, rfl, ?_⟩
    show (line_targets 3 poem fsi fsyl).tsi = none
    cases h : poem[2]? with
    | none => simp [line_targets, get_rhyme_target, h]
    | some tgt => simp [line_targets, get_rhyme_target, h]
  · intro l tsi ts rv
    rw [evaluate_eq_spec]
    have key : ∀ (rb : Bool) (d : Nat),
        "несовпадение ударения" ∈ (score_shape rb (stress_bad_spec l tsi) d).2 ↔
          stress_bad_spec l tsi = true := by
      intro rb d
      have hne1 : ("несовпадение ударения" : String) ≠ "плохая рифма" := by decide
      have hne2 : ("несовпадение ударения" : String) ≠ "разница в слогах: " ++ toString d :=
        Ne.symm (syll_issue_ne_stress d)
      cases hsb : stress_bad_spec l tsi <;> cases rb <;> by_cases hd : 0 < d <;>
        simp [score_shape, hd, hne1, hne2]
    simp only [evaluate_line_quality_spec]
    rw [key]
    rw [stress_bad_spec_eq]
    simp [Bool.and_eq_true, Bool.not_eq_true']

lemma stress_from_dict_of_lookup_marked (w : String) (dict : List (String × String))
    (sf : String) (c : Char) (i : Nat) (hl : List.lookup w dict = some sf)
    (hm : markedVowelInfo sf = some (c, i)) :
    stress_from_dict w dict = some (c, i, w) := by
  induction dict with
  | nil => cases hl
  | cons e rest ih =>
    obtain ⟨k, s⟩ := e
    by_cases hwk : w = k
    · subst hwk
      rw [List.lookup_cons_self] at hl
      cases hl
      simp [stress_from_dict, hm]
    · have hbeq : (w == k) = false := beq_eq_false_iff_ne.mpr hwk
      rw [List.lookup_cons, hbeq] at hl
      simp only [stress_from_dict, if_neg hwk]
      exact ih hl

lemma stress_from_dict_of_lookup_none (w : String) (dict : List (String × String))
    (hl : List.lookup w dict = none) : stress_from_dict w dict = none := by
  induction dict with
  | nil => rfl
  | cons e rest ih =>
    obtain ⟨k, s⟩ := e
    by_cases hwk : w = k
    · subst hwk
      rw [List.lookup_cons_self] at hl
      cases hl
    · have hbeq : (w == k) = false := beq_eq_false_iff_ne.mpr hwk
      rw [List.lookup_cons, hbeq] at hl
      simp only [stress_from_dict, if_neg hwk]
      exact ih hl

lemma second_to_last_eq_getElem (l : List (Char × Nat)) :
    2 ≤ l.length → second_to_last l = l[l.length - 2]? := by
  induction l with
  | nil =>
    intro h
    simp at h
  | cons a rest ih =>
    intro h
    cases rest with
    | nil => simp at h
    | cons b rest2 =>
      cases rest2 with
      | nil => rfl
      | cons c rest3 =>
        have h2 : 2 ≤ (b :: c :: rest3).length := by
          simp
        have := ih h2
        simp only [second_to_last, this]
        have hlen : (a :: b :: c :: rest3).length - 2 = ((b :: c :: rest3).length - 2) + 1 := by
          simp
        rw [hlen, List.getElem?_cons_succ]

/-- Claim C5, counterexample: the table entry for the word звезд has the
stressed form звёзд containing no uppercase letter, so although the word is
a key of the table, get_stress_pattern cannot return "the uppercase-marked
vowel of that key's stressed form" (there is none); it falls through to the
heuristic, which returns the sole vowel е at index 2. -/
theorem C5_counterexample :
    ("звезд", "звёзд") ∈ stress_dict ∧
    (¬ ∃ (v : Char) (i : Nat), markedVowelInfo "звёзд" = some (v, i) ∧
      get_stress_pattern "звезд" = some (v, i, "звезд")) ∧
    get_stress_pattern "звезд" = some ('е', 2, "звезд") := by
  refine ⟨by decide, ?_, by decide⟩
  rintro ⟨v, i, hm, -⟩
  have hnone : markedVowelInfo "звёзд" = none := by decide
  rw [hnone] at hm
  cases hm

/-- Claim C5, amended: for a last word that is a key of the stress table
WHOSE STRESSED FORM CONTAINS AN UPPERCASE LETTER, get_stress_pattern
returns that letter lowered with its index and the word; for a last word
not in the table it returns the second-to-last (vowel, index) pair when the
word has at least two vowels, the sole pair when it has exactly one, and
None when it has none; None also results for an empty or word-less line.
The single key without an uppercase mark, звезд, falls through to the
heuristic. -/
theorem C5_stress_amended :
    (∀ (text w sf : String) (c : Char) (i : Nat),
      last_word_lower text = some w →
      List.lookup w stress_dict = some sf →
      markedVowelInfo sf = some (c, i) →
      get_stress_pattern text = some (c, i, w)) ∧
    (∀ (text w : String),
      last_word_lower text = some w →
      List.lookup w stress_dict = none →
      get_stress_pattern text = stress_heuristic w) ∧
    (∀ w : String, vowel_positions w.toList 0 = [] → stress_heuristic w = none) ∧
    (∀ (w : String) (v : Char) (i : Nat),
      vowel_positions w.toList 0 = [(v, i)] → stress_heuristic w = some (v, i, w)) ∧
    (∀ (w : String) (v : Char) (i : Nat),
      2 ≤ (vowel_positions w.toList 0).length →
      (vowel_positions w.toList 0)[(vowel_positions w.toList 0).length - 2]? = some (v, i) →
      stress_heuristic w = some (v, i, w)) ∧
    (∀ text : String, last_word_lower text = none → get_stress_pattern text = none) ∧
    get_stress_pattern "звезд" = some ('е', 2, "звезд") := by
  refine ⟨?_, ?_, ?_, ?_, ?_, ?_, by decide⟩
  · intro text w sf c i hlw hl hm
    simp only [get_stress_pattern, hlw]
    rw [stress_from_dict_of_lookup_marked w stress_dict sf c i hl hm]
  · intro text w hlw hl
    simp only [get_stress_pattern, hlw]
    rw [stress_from_dict_of_lookup_none w stress_dict hl]
  · intro w h
    have hd : vowel_positions w.data 0 = [] := h
    simp [stress_heuristic, hd]
  · intro w v i h
    have hd : vowel_positions w.data 0 = [(v, i)] := h
    simp [stress_heuristic, hd, second_to_last]
  · intro w v i h2 hg
    rcases hvp : vowel_positions w.data 0 with _ | ⟨first, rest⟩
    · rw [show vowel_positions w.toList 0 = vowel_positions w.data 0 from rfl, hvp] at h2
      simp at h2
    · rw [show vowel_positions w.toList 0 = vowel_positions w.data 0 from rfl, hvp] at h2 hg
      have hs2l := second_to_last_eq_getElem (first :: rest) h2
      rw [hg] at hs2l
      simp [stress_heuristic, hvp, hs2l]
  · intro text h
    simp [get_stress_pattern, h]

/-- Witness for the amended claim C5 at a concrete line. -/
theorem C5_stress_witness : get_stress_pattern "пришла весна" = some ('а', 4, "весна") :=
  C5_stress_amended.1 "пришла весна" "весна" "веснА" 'а' 4 (by decide) (by decide) (by decide)

lemma sampleGoK_succ (oracle : Nat → String) (pl : List String) (tsi : Option StressInfo)
    (tsyl : Nat) (rv : Option Char) (fuel k : Nat) (best : Option (String × Int)) :
    sampleGoK oracle pl tsi tsyl rv (fuel + 1) k best =
      if gate_at oracle pl k = true then
        (if perfect_at oracle tsi tsyl rv k then (some (cand_at oracle k), k + 1)
         else sampleGoK oracle pl tsi tsyl rv fuel (k + 1)
           (update_best best (cand_at oracle k) (score_at oracle tsi tsyl rv k)))
      else sampleGoK oracle pl tsi tsyl rv fuel (k + 1) best := by
  simp only [sampleGoK, gate_at, cand_at, score_at]
  by_cases hg : passes_gates (clean_poem_line (oracle k)) pl = true
  · rw [if_pos hg, if_pos hg]
    by_cases hp : perfect_at oracle tsi tsyl rv k
    · have hp' : 0 ≤ (evaluate_line_quality (clean_poem_line (oracle k)) tsi tsyl rv).1 ∧
        (evaluate_line_quality (clean_poem_line (oracle k)) tsi tsyl rv).2 = [] := hp
      rw [if_pos hp', if_pos hp]
    · have hp' : ¬(0 ≤ (evaluate_line_quality (clean_poem_line (oracle k)) tsi tsyl rv).1 ∧
        (evaluate_line_quality (clean_poem_line (oracle k)) tsi tsyl rv).2 = []) := hp
      rw [if_neg hp', if_neg hp]
  · rw [if_neg hg, if_neg hg]

lemma update_best_ne_none (best : Option (String × Int)) (cand : String) (q : Int) :
    update_best best cand q ≠ none := by
  cases best with
  | none => simp [update_best]
  | some p =>
    obtain ⟨b, bq⟩ := p
    simp only [update_best]
    split <;> simp

lemma sampleGoK_agree (oracle oracle2 : Nat → String) (pl : List String)
    (tsi : Option StressInfo) (tsyl : Nat) (rv : Option Char) :
    ∀ (fuel k : Nat) (best : Option (String × Int)),
      (∀ j, j < k + fuel → k ≤ j → oracle j = oracle2 j) →
      sampleGoK oracle pl tsi tsyl rv fuel k best =
        sampleGoK oracle2 pl tsi tsyl rv fuel k best := by
  intro fuel
  induction fuel with
  | zero =>
    intro k best h
    rfl
  | succ f ih =>
    intro k best h
    have hk : oracle k = oracle2 k := h k (by omega) (le_refl k)
    have hg : gate_at oracle pl k = gate_at oracle2 pl k := by
      unfold gate_at cand_at
      rw [hk]
    have hc : cand_at oracle k = cand_at oracle2 k := by
      unfold cand_at
      rw [hk]
    have hs : score_at oracle tsi tsyl rv k = score_at oracle2 tsi tsyl rv k := by
      unfold score_at cand_at
      rw [hk]
    have hperf : perfect_at oracle tsi tsyl rv k ↔ perfect_at oracle2 tsi tsyl rv k := by
      unfold perfect_at score_at issues_at cand_at
      rw [hk]
    rw [sampleGoK_succ, sampleGoK_succ, hg, hc, hs]
    simp only [hperf]
    have hrec : ∀ best2, sampleGoK oracle pl tsi tsyl rv f (k + 1) best2 =
        sampleGoK oracle2 pl tsi tsyl rv f (k + 1) best2 :=
      fun best2 => ih (k + 1) best2 (fun j hj1 hj2 => h j (by omega) (by omega))
    by_cases hg2 : gate_at oracle2 pl k = true
    · rw [if_pos hg2, if_pos hg2]
      by_cases hp2 : perfect_at oracle2 tsi tsyl rv k
      · rw [if_pos hp2, if_pos hp2]
      · rw [if_neg hp2, if_neg hp2, hrec]
    · rw [if_neg hg2, if_neg hg2, hrec]

lemma sampleGoK_none_iff (oracle : Nat → String) (pl : List String) (tsi : Option StressInfo)
    (tsyl : Nat) (rv : Option Char) :
    ∀ (fuel k : Nat) (best : Option (String × Int)),
      ((sampleGoK oracle pl tsi tsyl rv fuel k best).1 = none ↔
        (best = none ∧ ∀ j, j < k + fuel → k ≤ j → gate_at oracle pl j = false)) := by
  intro fuel
  induction fuel with
  | zero =>
    intro k best
    constructor
    · intro h
      refine ⟨Option.map_eq_none'.mp h, ?_⟩
      intro j hj1 hj2
      omega
    · rintro ⟨hb, -⟩
      subst hb
      rfl
  | succ f ih =>
    intro k best
    rw [sampleGoK_succ]
    by_cases hg : gate_at oracle pl k = true
    · rw [if_pos hg]
      by_cases hp : perfect_at oracle tsi tsyl rv k
      · rw [if_pos hp]
        refine iff_of_false (by simp) ?_
        rintro ⟨-, hall⟩
        have := hall k (by omega) (le_refl k)
        rw [hg] at this
        cases this
      · rw [if_neg hp]
        refine iff_of_false ?_ ?_
        · intro h
          exact update_best_ne_none best _ _ ((ih (k + 1) _).mp h).1
        · rintro ⟨-, hall⟩
          have := hall k (by omega) (le_refl k)
          rw [hg] at this
          cases this
    · rw [if_neg hg]
      have hgf : gate_at oracle pl k = false := Bool.eq_false_iff.mpr hg
      rw [ih (k + 1) best]
      constructor
      · rintro ⟨hb, hall⟩
        refine ⟨hb, ?_⟩
        intro j hj1 hj2
        by_cases hjk : j = k
        · rw [hjk]
          exact hgf
        · exact hall j (by omega) (by omega)
      · rintro ⟨hb, hall⟩
        exact ⟨hb, fun j hj1 hj2 => hall j (by omega) (by omega)⟩

lemma sampleGoK_early (oracle : Nat → String) (pl : List String) (tsi : Option StressInfo)
    (tsyl : Nat) (rv : Option Char) :
    ∀ (fuel k : Nat) (best : Option (String × Int)) (j : Nat),
      j < k + fuel → k ≤ j → gate_at oracle pl j = true →
      perfect_at oracle tsi tsyl rv j →
      (∀ m, m < j → k ≤ m → ¬(gate_at oracle pl m = true ∧ perfect_at oracle tsi tsyl rv m)) →
      (sampleGoK oracle pl tsi tsyl rv fuel k best).1 = some (cand_at oracle j) := by
  intro fuel
  induction fuel with
  | zero =>
    intro k best j hj1 hj2
    omega
  | succ f ih =>
    intro k best j hj1 hj2 hg hp hmin
    rw [sampleGoK_succ]
    rcases eq_or_lt_of_le hj2 with rfl | hlt
    · rw [if_pos hg, if_pos hp]
    · by_cases hgk : gate_at oracle pl k = true
      · have hpk : ¬perfect_at oracle tsi tsyl rv k :=
          fun hp2 => hmin k hlt (le_refl k) ⟨hgk, hp2⟩
        rw [if_pos hgk, if_neg hpk]
        exact ih (k + 1) _ j (by omega) (by omega) hg hp
          (fun m hm1 hm2 => hmin m hm1 (by omega))
      · rw [if_neg hgk]
        exact ih (k + 1) best j (by omega) (by omega) hg hp
          (fun m hm1 hm2 => hmin m hm1 (by omega))

lemma sampleGoK_some_form (oracle : Nat → String) (pl : List String) (tsi : Option StressInfo)
    (tsyl : Nat) (rv : Option Char) :
    ∀ (fuel k : Nat) (best : Option (String × Int)),
      (best = none ∨ ∃ m, gate_at oracle pl m = true ∧
        best = some (cand_at oracle m, score_at oracle tsi tsyl rv m)) →
      ∀ b, (sampleGoK oracle pl tsi tsyl rv fuel k best).1 = some b →
        ∃ j, gate_at oracle pl j = true ∧ b = cand_at oracle j := by
  intro fuel
  induction fuel with
  | zero =>
    intro k best hbf b hb
    cases best with
    | none => cases hb
    | some p =>
      obtain ⟨s, q⟩ := p
      cases hb
      rcases hbf with hbn | ⟨m, hm1, hm2⟩
      · cases hbn
      · refine ⟨m, hm1, ?_⟩
        have := Option.some.inj hm2
        exact congrArg Prod.fst this
  | succ f ih =>
    intro k best hbf b hb
    rw [sampleGoK_succ] at hb
    by_cases hgk : gate_at oracle pl k = true
    · rw [if_pos hgk] at hb
      by_cases hpk : perfect_at oracle tsi tsyl rv k
      · rw [if_pos hpk] at hb
        cases hb
        exact ⟨k, hgk, rfl⟩
      · rw [if_neg hpk] at hb
        refine ih (k + 1) _ ?_ b hb
        right
        rcases hbf with hbn | ⟨m, hm1, hm2⟩
        · subst hbn
          exact ⟨k, hgk, rfl⟩
        · subst hm2
          simp only [update_best]
          by_cases hcmp : score_at oracle tsi tsyl rv m < score_at oracle tsi tsyl rv k
          · rw [if_pos hcmp]
            exact ⟨k, hgk, rfl⟩
          · rw [if_neg hcmp]
            exact ⟨m, hm1, rfl⟩
    · rw [if_neg hgk] at hb
      exact ih (k + 1) best hbf b hb

lemma sampleGoK_best_char (oracle : Nat → String) (pl : List String) (tsi : Option StressInfo)
    (tsyl : Nat) (rv : Option Char) (k0 : Nat) :
    ∀ (fuel k : Nat) (best : Option (String × Int)),
      k0 ≤ k →
      good_best oracle pl tsi tsyl rv k0 k best →
      (∀ j, j < k + fuel → k ≤ j → ¬(gate_at oracle pl j = true ∧ perfect_at oracle tsi tsyl rv j)) →
      ∀ b, (sampleGoK oracle pl tsi tsyl rv fuel k best).1 = some b →
        ∃ m, m < k + fuel ∧ k0 ≤ m ∧ gate_at oracle pl m = true ∧ b = cand_at oracle m ∧
          ∀ j, j < k + fuel → k0 ≤ j → gate_at oracle pl j = true →
            score_at oracle tsi tsyl rv j ≤ score_at oracle tsi tsyl rv m := by
  intro fuel
  induction fuel with
  | zero =>
    intro k best hk0 hgb hnp b hb
    cases best with
    | none => cases hb
    | some p =>
      obtain ⟨s, q⟩ := p
      cases hb
      rcases hgb with ⟨hbn, -⟩ | ⟨m, hm1, hm2, hm3, hm4, hm5⟩
      · cases hbn
      · have hsq := Option.some.inj hm4
        refine ⟨m, by omega, hm2, hm3, congrArg Prod.fst hsq, ?_⟩
        intro j hj1 hj2 hj3
        exact hm5 j (by omega) hj2 hj3
  | succ f ih =>
    intro k best hk0 hgb hnp b hb
    rw [sampleGoK_succ] at hb
    by_cases hgk : gate_at oracle pl k = true
    · have hpk : ¬perfect_at oracle tsi tsyl rv k :=
        fun hp => (hnp k (by omega) (le_refl k)) ⟨hgk, hp⟩
      rw [if_pos hgk, if_neg hpk] at hb
      have hgb2 : good_best oracle pl tsi tsyl rv k0 (k + 1)
          (update_best best (cand_at oracle k) (score_at oracle tsi tsyl rv k)) := by
        rcases hgb with ⟨hbn, hall⟩ | ⟨m, hm1, hm2, hm3, hm4, hm5⟩
        · subst hbn
          right
          refine ⟨k, by omega, hk0, hgk, rfl, ?_⟩
          intro j hj1 hj2 hj3
          by_cases hjk : j = k
          · rw [hjk]
          · have := hall j (by omega) hj2
            rw [hj3] at this
            cases this
        · right
          subst hm4
          simp only [update_best]
          by_cases hcmp : score_at oracle tsi tsyl rv m < score_at oracle tsi tsyl rv k
          · rw [if_pos hcmp]
            refine ⟨k, by omega, hk0, hgk, rfl, ?_⟩
            intro j hj1 hj2 hj3
            by_cases hjk : j = k
            · rw [hjk]
            · exact le_trans (hm5 j (by omega) hj2 hj3) (le_of_lt hcmp)
          · rw [if_neg hcmp]
            refine ⟨m, by omega, hm2, hm3, rfl, ?_⟩
            intro j hj1 hj2 hj3
            by_cases hjk : j = k
            · rw [hjk]
              exact le_of_not_lt hcmp
            · exact hm5 j (by omega) hj2 hj3
      obtain ⟨m, h1, h2, h3, h4, h5⟩ :=
        ih (k + 1) _ (by omega) hgb2 (fun j hj1 hj2 => hnp j (by omega) (by omega)) b hb
      exact ⟨m, by omega, h2, h3, h4, fun j hj1 hj2 hj3 => h5 j (by omega) hj2 hj3⟩
    · rw [if_neg hgk] at hb
      have hgkf : gate_at oracle pl k = false := Bool.eq_false_iff.mpr hgk
      have hgb2 : good_best oracle pl tsi tsyl rv k0 (k + 1) best := by
        rcases hgb with ⟨hbn, hall⟩ | ⟨m, hm1, hm2, hm3, hm4, hm5⟩
        · left
          refine ⟨hbn, ?_⟩
          intro j hj1 hj2
          by_cases hjk : j = k
          · rw [hjk]
            exact hgkf
          · exact hall j (by omega) hj2
        · right
          refine ⟨m, by omega, hm2, hm3, hm4, ?_⟩
          intro j hj1 hj2 hj3
          by_cases hjk : j = k
          · rw [hjk] at hj3
            rw [hgkf] at hj3
            cases hj3
          · exact hm5 j (by omega) hj2 hj3
      obtain ⟨m, h1, h2, h3, h4, h5⟩ :=
        ih (k + 1) best (by omega) hgb2 (fun j hj1 hj2 => hnp j (by omega) (by omega)) b hb
      exact ⟨m, by omega, h2, h3, h4, fun j hj1 hj2 hj3 => h5 j (by omega) hj2 hj3⟩

/-- Claim C1: the per-line candidate loop consults the oracle only at the
25 invocation indices [k0, k0+25); the first gate-passing candidate whose
score is at least 0 with no issues is accepted immediately; the loop
returns none exactly when no invocation passed the gates; and when no
invocation is accepted early, any returned candidate passed the gates and
carries a score at least that of every gate-passing invocation. -/
theorem C1_candidate_loop (oracle oracle2 : Nat → String) (pl : List String)
    (tsi : Option StressInfo) (tsyl : Nat) (rv : Option Char) (k0 : Nat) :
    ((∀ j, j < k0 + 25 → k0 ≤ j → oracle j = oracle2 j) →
      sample_candidate_line oracle pl tsi tsyl rv k0 =
        sample_candidate_line oracle2 pl tsi tsyl rv k0) ∧
    ((sample_candidate_line oracle pl tsi tsyl rv k0).1 = none ↔
      ∀ j, j < k0 + 25 → k0 ≤ j → gate_at oracle pl j = false) ∧
    (∀ j, j < k0 + 25 → k0 ≤ j → gate_at oracle pl j = true →
      perfect_at oracle tsi tsyl rv j →
      (∀ m, m < j → k0 ≤ m → ¬(gate_at oracle pl m = true ∧ perfect_at oracle tsi tsyl rv m)) →
      (sample_candidate_line oracle pl tsi tsyl rv k0).1 = some (cand_at oracle j)) ∧
    ((∀ j, j < k0 + 25 → k0 ≤ j → ¬(gate_at oracle pl j = true ∧ perfect_at oracle tsi tsyl rv j)) →
      ∀ b, (sample_candidate_line oracle pl tsi tsyl rv k0).1 = some b →
        ∃ m, m < k0 + 25 ∧ k0 ≤ m ∧ gate_at oracle pl m = true ∧ b = cand_at oracle m ∧
          ∀ j, j < k0 + 25 → k0 ≤ j → gate_at oracle pl j = true →
            score_at oracle tsi tsyl rv j ≤ score_at oracle tsi tsyl rv m) := by
  refine ⟨?_, ?_, ?_, ?_⟩
  · intro h
    exact sampleGoK_agree oracle oracle2 pl tsi tsyl rv 25 k0 none h
  · have h := sampleGoK_none_iff oracle pl tsi tsyl rv 25 k0 none
    simpa using h
  · intro j h1 h2 hg hp hmin
    exact sampleGoK_early oracle pl tsi tsyl rv 25 k0 none j h1 h2 hg hp hmin
  · intro hnp b hb
    exact sampleGoK_best_char oracle pl tsi tsyl rv k0 25 k0 none (le_refl k0)
      (Or.inl ⟨rfl, fun j hj1 hj2 => absurd hj1 (by omega)⟩) hnp b hb

/-- Witness for claim C1: with an oracle that always produces an empty
line, the candidate loop returns no candidate. -/
theorem C1_candidate_loop_witness :
    (sample_candidate_line (fun _ => "") [] none 0 none 0).1 = none :=
  (C1_candidate_loop (fun _ => "") (fun _ => "") [] none 0 none 0).2.1.mpr (by decide)

lemma is_valid_ne_empty (s : String) (h : is_valid_poem_line s 3 8 = true) : s ≠ "" := by
  intro he
  subst he
  exact absurd h (by decide)

lemma attempt_step_poem (oracle : Nat → String) (n : Nat) (st : AttemptState) :
    ∃ x, (attempt_step oracle n st).poem = st.poem ++ [x] ∧
      (x = "" ∨ (x ≠ "" ∧ is_valid_poem_line x 3 8 = true ∧
        ∃ j, x = clean_poem_line (oracle j))) := by
  cases hr : (sample_candidate_line oracle st.poem (line_targets n st.poem st.fsi st.fsyl).tsi
      (line_targets n st.poem st.fsi st.fsyl).tsyl
      (line_targets n st.poem st.fsi st.fsyl).rv st.k).1 with
  | some line =>
    refine ⟨line, ?_, ?_⟩
    · simp only [attempt_step, hr]
    · obtain ⟨j, hj1, hj2⟩ := sampleGoK_some_form oracle st.poem
        (line_targets n st.poem st.fsi st.fsyl).tsi
        (line_targets n st.poem st.fsi st.fsyl).tsyl
        (line_targets n st.poem st.fsi st.fsyl).rv 25 st.k none (Or.inl rfl) line hr
      have hg := hj1
      unfold gate_at at hg
      rw [← hj2] at hg
      simp only [passes_gates, Bool.and_eq_true, decide_eq_true_eq, Bool.not_eq_true'] at hg
      right
      refine ⟨is_valid_ne_empty line hg.1.1, hg.1.1, j, ?_⟩
      exact hj2
  | none =>
    set k2 := (sample_candidate_line oracle st.poem (line_targets n st.poem st.fsi st.fsyl).tsi
      (line_targets n st.poem st.fsi st.fsyl).tsyl
      (line_targets n st.poem st.fsi st.fsyl).rv st.k).2 with hk2
    by_cases hv : (is_valid_poem_line (clean_poem_line (oracle k2)) 3 8 &&
        !is_duplicate_line (clean_poem_line (oracle k2)) st.poem) = true
    · refine ⟨clean_poem_line (oracle k2), ?_, ?_⟩
      · simp only [attempt_step, hr, ← hk2, hv, if_true]
      · rw [Bool.and_eq_true] at hv
        right
        exact ⟨is_valid_ne_empty _ hv.1, hv.1, k2, rfl⟩
    · refine ⟨"", ?_, Or.inl rfl⟩
      simp [attempt_step, hr, ← hk2, hv]

/-- Claim C9: every single poem-generation attempt returns exactly 4 line
slots, and each slot is either the empty-string placeholder or a cleaned
(via clean_poem_line, on some generator output), valid, non-empty line. -/
theorem C9_attempt_always_four_slots (oracle : Nat → String) (k0 : Nat) :
    (generate_attempt oracle k0).1.length = 4 ∧
    ∀ s ∈ (generate_attempt oracle k0).1,
      s = "" ∨ (s ≠ "" ∧ is_valid_poem_line s 3 8 = true ∧
        ∃ j, s = clean_poem_line (oracle j)) := by
  obtain ⟨x0, h0, g0⟩ := attempt_step_poem oracle 0 ⟨[], none, 0, k0⟩
  obtain ⟨x1, h1, g1⟩ := attempt_step_poem oracle 1 (attempt_step oracle 0 ⟨[], none, 0, k0⟩)
  obtain ⟨x2, h2, g2⟩ := attempt_step_poem oracle 2
    (attempt_step oracle 1 (attempt_step oracle 0 ⟨[], none, 0, k0⟩))
  obtain ⟨x3, h3, g3⟩ := attempt_step_poem oracle 3
    (attempt_step oracle 2 (attempt_step oracle 1 (attempt_step oracle 0 ⟨[], none, 0, k0⟩)))
  have hp : (generate_attempt oracle k0).1 = [x0, x1, x2, x3] := by
    show (attempt_step oracle 3 (attempt_step oracle 2 (attempt_step oracle 1
      (attempt_step oracle 0 ⟨[], none, 0, k0⟩)))).poem = _
    rw [h3, h2, h1, h0]
    rfl
  rw [hp]
  refine ⟨rfl, ?_⟩
  intro s hs
  simp only [List.mem_cons, List.not_mem_nil, or_false] at hs
  rcases hs with rfl | rfl | rfl | rfl
  · exact g0
  · exact g1
  · exact g2
  · exact g3

/-- Witness for claim C9 at a concrete oracle and slot. -/
theorem C9_witness :
    ("" : String) = "" ∨ (("" : String) ≠ "" ∧ is_valid_poem_line "" 3 8 = true ∧
      ∃ j : Nat, ("" : String) = clean_poem_line ((fun (_ : Nat) => ("" : String)) j)) :=
  (C9_attempt_always_four_slots (fun _ => "") 0).2 "" (by decide)

lemma outer_go_first_complete (A : Nat → List String) :
    ∀ (fuel att j : Nat), att ≤ j → j ≤ att + fuel → poem_complete (A j) = true →
      (∀ m, att ≤ m → m < j → poem_complete (A m) = false) →
      outer_go A fuel att = A j := by
  intro fuel
  induction fuel with
  | zero =>
    intro att j h1 h2 hc hmin
    have hj : j = att := by omega
    subst hj
    rfl
  | succ f ih =>
    intro att j h1 h2 hc hmin
    show (if poem_complete (A att) = true then A att else outer_go A f (att + 1)) = A j
    by_cases hca : poem_complete (A att) = true
    · rw [if_pos hca]
      by_cases hje : att = j
      · rw [hje]
      · have hlt : att < j := by omega
        have := hmin att (le_refl att) hlt
        rw [this] at hca
        cases hca
    · rw [if_neg hca]
      have hja : j ≠ att := fun he => hca (he ▸ hc)
      exact ih (att + 1) j (by omega) (by omega) hc (fun m hm1 hm2 => hmin m (by omega) hm2)

lemma outer_go_none_complete (A : Nat → List String) :
    ∀ (fuel att : Nat), (∀ m, att ≤ m → m ≤ att + fuel → poem_complete (A m) = false) →
      outer_go A fuel att = A (att + fuel) := by
  intro fuel
  induction fuel with
  | zero =>
    intro att h
    rfl
  | succ f ih =>
    intro att h
    show (if poem_complete (A att) = true then A att else outer_go A f (att + 1)) = _
    have hf : poem_complete (A att) = false := h att (le_refl att) (by omega)
    rw [if_neg (by rw [hf]; simp)]
    rw [ih (att + 1) (fun m hm1 hm2 => h m (by omega) (by omega))]
    congr 1
    omega

lemma outer_go_agree (A A2 : Nat → List String) :
    ∀ (fuel att : Nat), (∀ m, att ≤ m → m ≤ att + fuel → A m = A2 m) →
      outer_go A fuel att = outer_go A2 fuel att := by
  intro fuel
  induction fuel with
  | zero =>
    intro att h
    exact h att (le_refl att) (by omega)
  | succ f ih =>
    intro att h
    show (if poem_complete (A att) = true then A att else outer_go A f (att + 1)) =
      (if poem_complete (A2 att) = true then A2 att else outer_go A2 f (att + 1))
    rw [h att (le_refl att) (by omega)]
    by_cases hc : poem_complete (A2 att) = true
    · rw [if_pos hc, if_pos hc]
    · rw [if_neg hc, if_neg hc]
      exact ih (att + 1) (fun m hm1 hm2 => h m (by omega) (by omega))

/-- Claim C3: the outer loop consults at most the first 8 attempt results;
it stops at the first complete attempt (all 4 slots non-empty), which
becomes the final result; and if none of the 8 attempts is complete it
returns the 8th attempt's slots rather than failing. run_poem_generation
is this loop over the attempt sequence of generate_spring_poem. -/
theorem C3_outer_loop (A A2 : Nat → List String) (oracle : Nat → String) :
    ((∀ i, i < 8 → A i = A2 i) → outer_go A 7 0 = outer_go A2 7 0) ∧
    (∀ j, j < 8 → poem_complete (A j) = true →
      (∀ m, m < j → poem_complete (A m) = false) → outer_go A 7 0 = A j) ∧
    ((∀ j, j < 8 → poem_complete (A j) = false) → outer_go A 7 0 = A 7) ∧
    run_poem_generation oracle = outer_go (fun n => (attemptSeq oracle n).1) 7 0 := by
  refine ⟨?_, ?_, ?_, rfl⟩
  · intro h
    exact outer_go_agree A A2 7 0 (fun m hm1 hm2 => h m (by omega))
  · intro j hj hc hmin
    exact outer_go_first_complete A 7 0 j (by omega) (by omega) hc
      (fun m hm1 hm2 => hmin m hm2)
  · intro h
    exact outer_go_none_complete A 7 0 (fun m hm1 hm2 => h m (by omega))

/-- Witness for claim C3: a complete first attempt is returned as is. -/
theorem C3_outer_loop_witness :
    outer_go (fun n => if n = 0 then ["а", "б", "в", "г"] else ["", "", "", ""]) 7 0 =
      ["а", "б", "в", "г"] :=
  (C3_outer_loop (fun n => if n = 0 then ["а", "б", "в", "г"] else ["", "", "", ""])
    (fun _ => []) (fun _ => "")).2.1 0 (by omega) (by decide)
    (fun m hm => absurd hm (Nat.not_lt_zero m))
